import Mathlib

/-!
Verification development for the cybercipher masking/redaction library.

The JavaScript sources are shallowly embedded:
* strings are `List Char` (a JS string is a sequence of UTF-16 code units;
  `Char.toNat` plays the role of `charCodeAt` and is injective, which is all
  the proofs use);
* JS numbers are modelled exactly where the source only ever produces values
  on which IEEE-754 double arithmetic is exact, and the one place where double
  rounding is observable — `Math.round((strLength - visibleStart - visibleEnd)
  * maskRatio)` in `src/mask.js` — is modelled bit-precisely by `roundMantissa`
  / `maskedLen` below;
* fallible operations return `Option`.
-/

namespace Cybercipher

/-! ## IEEE-754 double model for the mask-length computation

`src/mask.js` computes `Math.round((strLength - visibleStart - visibleEnd) *
maskRatio)` where `maskRatio` is one of the JS number literals `0.3`, `0.7`,
`1`.  As IEEE-754 binary64 values these literals are the dyadic rationals
`5404319552844595 / 2^54`, `3152519739159347 / 2^52` and `1`.  The product of
the exactly-representable integer `h` with the ratio is rounded to the nearest
binary64 (53 significant bits, ties to even), and `Math.round` then takes the
closest integer with ties toward +infinity, i.e. `⌊x + 1/2⌋` on the exact
value of the double.  Everything is expressed over `ℕ`: the double's value is
`roundMantissa (h * num) / 2^den`, and `⌊v + 1/2⌋ = (2*N + 2^den) / 2^(den+1)`
by natural division. -/

/-- Halving loop for `bitLen`, fuelled so that it is structurally recursive
and hence reduces in the kernel; the fuel `n` itself always suffices. -/
def bitLenAux : ℕ → ℕ → ℕ
  | 0, _ => 0
  | fuel + 1, n => if n = 0 then 0 else bitLenAux fuel (n / 2) + 1

/-- The bit length of a natural number: `0` for `0`, otherwise
`⌊log₂ n⌋ + 1`. -/
def bitLen (n : ℕ) : ℕ := bitLenAux n n

/-- Round the natural number `N` to 53 significant bits, ties to even: the
mantissa rounding performed when the exact product `N / 2^k` is stored in an
IEEE-754 binary64 (no overflow or subnormals occur in the ranges used). -/
def roundMantissa (N : ℕ) : ℕ :=
  if N < 2 ^ 53 then N
  else
    let s := bitLen N - 53
    let q := N / 2 ^ s
    let r := N % 2 ^ s
    let half := 2 ^ (s - 1)
    let q' := if half < r ∨ (r = half ∧ q % 2 = 1) then q + 1 else q
    q' * 2 ^ s

/-- The property keys a plain object literal inherits from
`Object.prototype` in a standard realm (node): property reads at these keys
return a truthy non-number (a built-in function, or for `__proto__` the
`Object.prototype` object itself), so they short-circuit a `|| fallback`. -/
def objectPrototypeKeys : List String :=
  ["constructor", "hasOwnProperty", "isPrototypeOf", "propertyIsEnumerable",
   "toLocaleString", "toString", "valueOf", "__proto__",
   "__defineGetter__", "__defineSetter__", "__lookupGetter__", "__lookupSetter__"]

/-- The value the source binds to `maskRatio`: a JS number — represented as
numerator and dyadic denominator exponent of its exact binary64 value — or a
truthy non-number inherited from `Object.prototype`, whose arithmetic use
yields `NaN`. -/
inductive MaskRatio where
  | num (n : ℕ) (den : ℕ)
  | nonNumber
deriving DecidableEq

/-- The lookup `sensitivityLevels[sensitivity] || sensitivityLevels.medium`:
the three own keys map to the doubles nearest 0.3, 0.7 and 1; a key naming an
`Object.prototype` member reads a truthy inherited non-number, which the `||`
keeps; every other key reads `undefined` and falls back to the `medium`
entry. -/
def sensitivityLevels (sensitivity : String) : MaskRatio :=
  if sensitivity = "low" then .num 5404319552844595 54
  else if sensitivity = "medium" then .num 3152519739159347 52
  else if sensitivity = "high" then .num 1 0
  else if sensitivity ∈ objectPrototypeKeys then .nonNumber
  else .num 3152519739159347 52

/-- `Math.round(h * maskRatio)` exactly as JS computes it.  For a numeric
ratio the product `h * ratio` is rounded to the nearest binary64, whose value
is `roundMantissa (h * num) / 2^den`, and `Math.round` of a non-negative
double `v` is `⌊v + 1/2⌋`, which for `v = N / 2^den` is
`(2*N + 2^den) / 2^(den+1)` by natural division.  For a non-number ratio the
product and its `Math.round` are `NaN`, modelled as `none`. -/
def maskedLen (h : ℕ) (sensitivity : String) : Option ℕ :=
  match sensitivityLevels sensitivity with
  | .num m den => some ((2 * roundMantissa (h * m) + 2 ^ den) / 2 ^ (den + 1))
  | .nonNumber => none

/-! ## The mask function (`src/mask.js`) -/

/-- The `maskChar` option of `src/mask.js`: either a literal string repeated
to build the masked part, or a generator function invoked with the requested
length (a JS number that can be `NaN`, hence `Option ℕ`). -/
inductive MaskChar where
  | lit (s : List Char)
  | gen (f : Option ℕ → List Char)

/-- The options object taken by `mask`, with the source's defaults
(`visibleStart = 2`, `visibleEnd = 2`, `maskChar = '*'`,
`sensitivity = 'medium'`).  Per the data model the visibility counts are
non-negative integers. -/
structure MaskOptions where
  visibleStart : ℕ := 2
  visibleEnd : ℕ := 2
  maskChar : MaskChar := .lit ['*']
  sensitivity : String := "medium"

/-- `maskChar.repeat(n)`: the literal string repeated `n` times. -/
def repeatStr (s : List Char) (n : ℕ) : List Char :=
  (List.replicate n s).flatten

/-- The body of `mask` for string input (`src/mask.js`): short-circuit when
`visibleStart + visibleEnd >= strLength`, otherwise visible prefix ++ masked
part ++ visible suffix (`str.substring (0, visibleStart)` is `take`,
`str.substring (strLength - visibleEnd)` is `drop`).  For a literal
`maskChar`, `maskChar.repeat(maskedPartLength)` coerces a `NaN` count to 0
(`ToIntegerOrInfinity(NaN) = +0`), hence `Option.getD 0`; a generator
receives the raw count, `NaN` included. -/
def maskList (str : List Char) (options : MaskOptions) : List Char :=
  let strLength := str.length
  if strLength ≤ options.visibleStart + options.visibleEnd then str
  else
    let maskedPartLength :=
      maskedLen (strLength - options.visibleStart - options.visibleEnd) options.sensitivity
    let maskedPart :=
      match options.maskChar with
      | .lit s => repeatStr s (maskedPartLength.getD 0)
      | .gen f => f maskedPartLength
    str.take options.visibleStart ++ maskedPart ++ str.drop (strLength - options.visibleEnd)

/-- A dynamically-typed JS value, as far as `mask` and `compare` inspect one:
a string or one of the non-string shapes their `typeof` guards reject. -/
inductive JSValue where
  | str (s : List Char)
  | num (n : ℤ)
  | bool (b : Bool)
  | nullV
  | undefined
  | obj

/-- `typeof v === 'string'`. -/
def JSValue.isString : JSValue → Bool
  | .str _ => true
  | _ => false

/-- `mask` on an arbitrary JS value: the `typeof str !== 'string'` guard
returns the empty string, otherwise the string body `maskList` runs. -/
def mask (v : JSValue) (options : MaskOptions) : List Char :=
  match v with
  | .str s => maskList s options
  | _ => []

/-! ## Constant-time comparison (`src/compare.js`) -/

/-- The accumulator loop of `compare`: `result |= str1.charCodeAt(i) ^
str2.charCodeAt(i)` over all positions of two equal-length strings
(`charCodeAt` is `Char.toNat`). -/
def xorFold (s1 s2 : List Char) : ℕ :=
  (List.zipWith (fun c1 c2 => c1.toNat ^^^ c2.toNat) s1 s2).foldl (· ||| ·) 0

/-- `compare(str1, str2)` from `src/compare.js`: `false` when either argument
is not a string or the lengths differ, otherwise the OR of the per-position
XORs compared against 0. -/
def compare (str1 str2 : JSValue) : Bool :=
  match str1, str2 with
  | .str s1, .str s2 =>
    if s1.length ≠ s2.length then false
    else xorFold s1 s2 == 0
  | _, _ => false

/-! ## Bloom filter (`src/bloomFilter.js`)

Hash-state arithmetic: `hash = (hash << 5) - hash + str.charCodeAt(i);
hash |= 0`.  `<<` coerces its operand with `ToInt32` and wraps the shifted
result to a signed 32-bit integer; the subtraction and addition are exact in
binary64 for every value reachable from an integer seed below `2^53`, so they
are modelled as exact integer arithmetic; `|= 0` is another `ToInt32`. -/

/-- JS `ToInt32`: wrap an integer to the signed 32-bit range. -/
def toInt32 (n : ℤ) : ℤ := (n + 2 ^ 31) % 2 ^ 32 - 2 ^ 31

/-- One loop iteration of `BloomFilter._hash`. -/
def hashStep (hash : ℤ) (code : ℕ) : ℤ :=
  toInt32 (toInt32 (toInt32 hash * 32) - hash + code)

/-- The filter state: bit-array size, the array itself (JS numbers 0/1), and
the seed list handed to the constructor. -/
structure BloomFilter where
  size : ℕ
  bitArray : List ℕ
  hashFunctions : List ℤ

/-- `new BloomFilter(size, hashFunctions)`: `bitArray = new Array(size).fill(0)`.
The constructor's defaults are `size = 100`, `hashFunctions = []`. -/
def BloomFilter.make (size : ℕ) (hashFunctions : List ℤ) : BloomFilter :=
  { size := size, bitArray := List.replicate size 0, hashFunctions := hashFunctions }

/-- `new BloomFilter()` with both defaults. -/
def BloomFilter.makeDefault : BloomFilter := BloomFilter.make 100 []

namespace BloomFilter

/-- `_hash(str, seed)`: run `hashStep` over the character codes starting from
the seed, then `Math.abs(hash) % this.size`. -/
def hashIndex (bf : BloomFilter) (str : List Char) (seed : ℤ) : ℕ :=
  (str.foldl (fun h c => hashStep h c.toNat) seed).natAbs % bf.size

/-- `add(str)`: set `bitArray[_hash(str, seed)] = 1` for each seed. -/
def add (bf : BloomFilter) (str : List Char) : BloomFilter :=
  { bf with
    bitArray := bf.hashFunctions.foldl (fun arr seed => arr.set (bf.hashIndex str seed) 1) bf.bitArray }

/-- `check(str)`: `false` as soon as some probed cell `=== 0`, else `true`
(an out-of-range read yields `undefined`, which is not `=== 0`). -/
def check (bf : BloomFilter) (str : List Char) : Bool :=
  bf.hashFunctions.all (fun seed => bf.bitArray.get? (bf.hashIndex str seed) != some 0)

/-- A sequence of `add` calls. -/
def addAll (bf : BloomFilter) (items : List (List Char)) : BloomFilter :=
  items.foldl add bf

end BloomFilter

/-! ## Redaction pipeline (`redactFile` in `cli.js`)

`redactFile` compiles each rule key with `new RegExp(key, 'g')` inside a
`try`; a compilation failure is caught, leaving the text unmodified by that
rule, and the loop continues.  On success the rule does a global
`current.replace(regex, match => mask(match, rule))`.

The regex engine below implements JS `RegExp` semantics (leftmost match,
greedy quantifiers with backtracking) for the fragment of regex syntax the
repository's rule sets use: literal characters, `\d` and identity escapes,
`.`, character classes with ranges, and the quantifiers `+`, `{n}` and
`{n,}`.  Patterns outside this fragment — and every pattern that is a
`SyntaxError` for `RegExp`, such as an unterminated character class — are
rejected by the parser; patterns matching the empty string do not arise from
this fragment's compiled forms with the quantifiers above except via `{0}`,
which the parser accepts but the rule sets never use. -/

/-- A character-class member: a single character or a range. -/
inductive ClassItem where
  | single (c : Char)
  | range (lo hi : Char)
deriving DecidableEq

/-- A regex atom of the modelled fragment. -/
inductive Atom where
  | lit (c : Char)
  | digit
  | dot
  | cls (items : List ClassItem)
deriving DecidableEq

/-- A quantifier attached to an atom: none, `+`, `{n}`, `{n,}`. -/
inductive Quant where
  | one
  | plus
  | exact (n : ℕ)
  | atLeast (n : ℕ)
deriving DecidableEq

/-- A compiled pattern: a sequence of quantified atoms. -/
abbrev Regex := List (Atom × Quant)

/-- Does a class item accept a character? -/
def ClassItem.accepts : ClassItem → Char → Bool
  | .single c, d => c == d
  | .range lo hi, d => lo ≤ d && d ≤ hi

/-- Does an atom accept a character?  `.` excludes JS line terminators. -/
def Atom.accepts : Atom → Char → Bool
  | .lit c, d => c == d
  | .digit, d => '0' ≤ d && d ≤ '9'
  | .dot, d => !(d == '\n' || d == '\r' || d == (Char.ofNat 0x2028) || d == (Char.ofNat 0x2029))
  | .cls items, d => items.any (·.accepts d)

/-- Length of the maximal prefix accepted by an atom. -/
def runLength (a : Atom) : List Char → ℕ
  | [] => 0
  | c :: cs => if a.accepts c then runLength a cs + 1 else 0

/-- The consumption counts a greedy quantifier tries, in backtracking order
(longest first), given the maximal run available. -/
def candidates (a : Atom) (q : Quant) (cs : List Char) : List ℕ :=
  let m := runLength a cs
  match q with
  | .one => if 1 ≤ m then [1] else []
  | .plus => (List.range m).map (m - ·)
  | .exact n => if n ≤ m then [n] else []
  | .atLeast n => if n ≤ m then (List.range (m - n + 1)).map (m - ·) else []

/-- Backtracking matcher: the number of characters a match of `re` anchored at
the start of `cs` consumes, trying each atom's greedy alternatives in JS
backtracking order and, for each, matching the remaining sequence. -/
def tryMatch : Regex → List Char → Option ℕ
  | [], _ => some 0
  | aq :: rest, cs =>
    (candidates aq.1 aq.2 cs).findSome? fun k => (tryMatch rest (cs.drop k)).map (k + ·)

/-- Global-replacement scanner, fuelled by the remaining text length (each
step consumes at least one character, so the zero-fuel branch is never
reached from `replaceAll`): at each position replace the leftmost-greedy
match (when one of positive length exists) and resume after it, otherwise
emit one character. -/
def replaceScan (re : Regex) (f : List Char → List Char) : ℕ → List Char → List Char
  | _, [] => []
  | 0, cs => cs
  | fuel + 1, c :: cs =>
    match tryMatch re (c :: cs) with
    | some (k + 1) =>
      f ((c :: cs).take (k + 1)) ++ replaceScan re f fuel ((c :: cs).drop (k + 1))
    | _ => c :: replaceScan re f fuel cs

/-- Global replacement, as `String.prototype.replace` with a `g` regex. -/
def replaceAll (re : Regex) (f : List Char → List Char) (text : List Char) : List Char :=
  replaceScan re f text.length text

/-- Read a run of decimal digits, most significant first, onto `acc`. -/
def readNat : List Char → ℕ → ℕ × List Char
  | c :: cs, acc => if c.isDigit then readNat cs (acc * 10 + (c.toNat - 48)) else (acc, c :: cs)
  | [], acc => (acc, [])

/-- Parse the members of a character class up to the closing `]`; an
unterminated class or an out-of-order range is a `SyntaxError`, hence `none`. -/
def parseClassItems : List Char → Option (List ClassItem × List Char)
  | [] => none
  | ']' :: rest => some ([], rest)
  | a :: '-' :: b :: rest =>
    if b = ']' then some ([.single a, .single '-'], rest)
    else if b < a then none
    else
      match parseClassItems rest with
      | some (items, rest') => some (.range a b :: items, rest')
      | none => none
  | a :: rest =>
    match parseClassItems rest with
    | some (items, rest') => some (.single a :: items, rest')
    | none => none

/-- Parse one atom; characters the fragment does not support (groups,
alternation, `*`, `?`, anchors) and a `+` or dangling `\` with nothing to
repeat/escape fail the compilation. -/
def parseAtom : List Char → Option (Atom × List Char)
  | [] => none
  | '\\' :: c :: rest => some (if c = 'd' then (.digit, rest) else (.lit c, rest))
  | '\\' :: [] => none
  | '[' :: rest =>
    match parseClassItems rest with
    | some (items, rest') => some (.cls items, rest')
    | none => none
  | '.' :: rest => some (.dot, rest)
  | c :: rest =>
    if c = '(' ∨ c = ')' ∨ c = '|' ∨ c = '*' ∨ c = '?' ∨ c = '+' ∨ c = '^' ∨ c = '$' ∨ c = '{' then
      none
    else some (.lit c, rest)

/-- Parse the quantifier following an atom, if any: `+`, `{n}`, `{n,}`. -/
def parseQuantifier : List Char → Option (Quant × List Char)
  | '+' :: rest => some (.plus, rest)
  | '{' :: rest =>
    match rest with
    | c :: _ =>
      if c.isDigit then
        match readNat rest 0 with
        | (n, '}' :: rest') => some (.exact n, rest')
        | (n, ',' :: '}' :: rest') => some (.atLeast n, rest')
        | _ => none
      else none
    | [] => none
  | cs => some (.one, cs)

/-- Parse a whole pattern, fuelled by its length (each atom consumes at least
one character, so the fuel never runs out on the recursion path). -/
def parseSeq : ℕ → List Char → Option Regex
  | _, [] => some []
  | 0, _ :: _ => none
  | fuel + 1, cs =>
    match parseAtom cs with
    | none => none
    | some (a, rest) =>
      match parseQuantifier rest with
      | none => none
      | some (q, rest') =>
        match parseSeq fuel rest' with
        | none => none
        | some re => some ((a, q) :: re)

/-- `new RegExp(pattern, 'g')` on the modelled fragment: `none` models the
constructor throwing a `SyntaxError`. -/
def parseRegex (pattern : String) : Option Regex :=
  parseSeq (pattern.data.length + 1) pattern.data

/-- One iteration of the rule loop in `redactFile`: compile the pattern key;
the `catch` leaves the text unchanged on failure; otherwise globally replace
each match `m` by `mask(m, rule)`. -/
def applyRule (text : List Char) (rule : String × MaskOptions) : List Char :=
  match parseRegex rule.1 with
  | none => text
  | some re => replaceAll re (fun m => maskList m rule.2) text

/-- The rule loop of `redactFile`: rules applied in order, each to the text
produced by the previous ones. -/
def redactData (rules : List (String × MaskOptions)) (text : List Char) : List Char :=
  rules.foldl applyRule text

/-! ## Helper lemmas -/

theorem repeatStr_single (c : Char) (n : ℕ) : repeatStr [c] n = List.replicate n c := by
  induction n with
  | zero => rfl
  | succ m ih => simp_all [repeatStr, List.replicate_succ]

theorem roundMantissa_small {N : ℕ} (h : N < 2 ^ 53) : roundMantissa N = N := by
  unfold roundMantissa
  rw [if_pos h]

theorem maskedLen_high {h : ℕ} (hh : h < 2 ^ 53) : maskedLen h "high" = some h := by
  have hs : sensitivityLevels "high" = .num 1 0 := by decide
  simp only [maskedLen, hs, mul_one]
  rw [roundMantissa_small hh]
  congr 1
  omega

theorem lor_eq_zero_iff (a b : ℕ) : a ||| b = 0 ↔ a = 0 ∧ b = 0 := by
  constructor
  · intro h
    constructor <;>
      · apply Nat.eq_of_testBit_eq
        intro i
        have h2 := congrArg (fun n => Nat.testBit n i) h
        simp [Nat.testBit_or] at h2
        simp [h2.1, h2.2]
  · rintro ⟨rfl, rfl⟩
    rfl

theorem foldl_lor_eq_zero (l : List ℕ) (acc : ℕ) :
    l.foldl (· ||| ·) acc = 0 ↔ acc = 0 ∧ ∀ x ∈ l, x = 0 := by
  induction l generalizing acc with
  | nil => simp
  | cons a t ih =>
    rw [List.foldl_cons, ih, lor_eq_zero_iff]
    simp only [List.forall_mem_cons]
    tauto

theorem char_toNat_inj {a b : Char} (h : a.toNat = b.toNat) : a = b := by
  simpa [Char.ext_iff, UInt32.ext_iff] using h

theorem zipWith_xor_eq_zero (s1 : List Char) (s2 : List Char)
    (h : s1.length = s2.length) :
    (∀ x ∈ List.zipWith (fun c1 c2 => c1.toNat ^^^ c2.toNat) s1 s2, x = 0) ↔ s1 = s2 := by
  induction s1 generalizing s2 with
  | nil =>
    cases s2 with
    | nil => simp
    | cons b t2 => simp at h
  | cons a t ih =>
    cases s2 with
    | nil => simp at h
    | cons b t2 =>
      simp only [List.zipWith_cons_cons, List.forall_mem_cons, List.cons.injEq]
      rw [ih t2 (by simpa using h), Nat.xor_eq_zero]
      exact and_congr_left fun _ => ⟨char_toNat_inj, fun he => by rw [he]⟩

theorem xorFold_eq_zero (s1 s2 : List Char) (h : s1.length = s2.length) :
    xorFold s1 s2 = 0 ↔ s1 = s2 := by
  unfold xorFold
  rw [foldl_lor_eq_zero]
  simp only [true_and]
  exact zipWith_xor_eq_zero s1 s2 h

theorem maskList_split (s : List Char) (o : MaskOptions) (mc : List Char)
    (hmc : o.maskChar = .lit mc)
    (hlt : o.visibleStart + o.visibleEnd < s.length) :
    maskList s o =
      s.take o.visibleStart ++
        repeatStr mc
          ((maskedLen (s.length - o.visibleStart - o.visibleEnd) o.sensitivity).getD 0) ++
        s.drop (s.length - o.visibleEnd) := by
  simp only [maskList, hmc]
  rw [if_neg (by omega)]

namespace BloomFilter

theorem add_size (bf : BloomFilter) (x : List Char) : (bf.add x).size = bf.size := rfl

theorem add_hashFunctions (bf : BloomFilter) (x : List Char) :
    (bf.add x).hashFunctions = bf.hashFunctions := rfl

theorem addAll_size (bf : BloomFilter) (items : List (List Char)) :
    (bf.addAll items).size = bf.size := by
  induction items generalizing bf with
  | nil => rfl
  | cons y t ih => rw [addAll, List.foldl_cons]; exact ih (bf.add y)

theorem addAll_hashFunctions (bf : BloomFilter) (items : List (List Char)) :
    (bf.addAll items).hashFunctions = bf.hashFunctions := by
  induction items generalizing bf with
  | nil => rfl
  | cons y t ih => rw [addAll, List.foldl_cons]; exact ih (bf.add y)

/-- The hash index only depends on the `size` field. -/
theorem hashIndex_congr (bf bf' : BloomFilter) (x : List Char) (seed : ℤ)
    (h : bf.size = bf'.size) : bf.hashIndex x seed = bf'.hashIndex x seed := by
  unfold hashIndex
  rw [h]

/-- Setting any cell to 1 never clears a cell that already holds 1. -/
theorem get?_set_one (arr : List ℕ) (i j : ℕ) (h : arr.get? i = some 1) :
    (arr.set j 1).get? i = some 1 := by
  rcases eq_or_ne i j with rfl | hij
  · have hi : i < arr.length := by
      by_contra hge
      rw [List.get?_eq_getElem?, List.getElem?_eq_none (by omega)] at h
      exact Option.noConfusion h
    rw [List.get?_eq_getElem?, List.getElem?_set_self (by simpa using hi)]
  · rw [List.get?_eq_getElem?, List.getElem?_set_ne (Ne.symm hij), ← List.get?_eq_getElem?]
    exact h

/-- A cell holding 1 still holds 1 after a whole fold of `set _ 1` calls. -/
theorem foldl_set_get?_one (idx : ℤ → ℕ) (seeds : List ℤ) (arr : List ℕ) (i : ℕ)
    (h : arr.get? i = some 1) :
    (seeds.foldl (fun a sd => a.set (idx sd) 1) arr).get? i = some 1 := by
  induction seeds generalizing arr with
  | nil => exact h
  | cons sd t ih => exact ih (arr.set (idx sd) 1) (get?_set_one arr i (idx sd) h)

/-- The fold of `set _ 1` calls leaves every probed index holding 1, provided
every index is in range. -/
theorem foldl_set_sets (idx : ℤ → ℕ) (seeds : List ℤ) (arr : List ℕ) (sd : ℤ)
    (hmem : sd ∈ seeds) (hlt : ∀ s, idx s < arr.length) :
    (seeds.foldl (fun a sd => a.set (idx sd) 1) arr).get? (idx sd) = some 1 := by
  induction seeds generalizing arr with
  | nil => cases hmem
  | cons a t ih =>
    rw [List.foldl_cons]
    rcases List.mem_cons.mp hmem with rfl | hmem'
    · apply foldl_set_get?_one
      rw [List.get?_eq_getElem?, List.getElem?_set_self (by simpa using hlt sd)]
    · exact ih (arr.set (idx a) 1) hmem' (fun s => by rw [List.length_set]; exact hlt s)

/-- A fold of `set` calls preserves the array length. -/
theorem foldl_set_length (idx : ℤ → ℕ) (seeds : List ℤ) (arr : List ℕ) :
    (seeds.foldl (fun a sd => a.set (idx sd) 1) arr).length = arr.length := by
  induction seeds generalizing arr with
  | nil => rfl
  | cons a t ih => rw [List.foldl_cons, ih (arr.set (idx a) 1), List.length_set]

theorem add_length (bf : BloomFilter) (x : List Char) :
    (bf.add x).bitArray.length = bf.bitArray.length :=
  foldl_set_length (bf.hashIndex x) bf.hashFunctions bf.bitArray

theorem addAll_length (bf : BloomFilter) (items : List (List Char)) :
    (bf.addAll items).bitArray.length = bf.bitArray.length := by
  induction items generalizing bf with
  | nil => rfl
  | cons y t ih => exact (ih (bf.add y)).trans (add_length bf y)

/-- `add` marks every cell probed for the added item, when the bit array
covers the index range. -/
theorem add_get?_one (bf : BloomFilter) (x : List Char) (sd : ℤ)
    (hmem : sd ∈ bf.hashFunctions)
    (hlen : bf.size ≤ bf.bitArray.length) (hpos : 0 < bf.size) :
    (bf.add x).bitArray.get? (bf.hashIndex x sd) = some 1 :=
  foldl_set_sets (bf.hashIndex x) bf.hashFunctions bf.bitArray sd hmem
    (fun _ => lt_of_lt_of_le (Nat.mod_lt _ hpos) hlen)

/-- Marked cells survive any further sequence of `add` calls. -/
theorem addAll_get?_one (bf : BloomFilter) (items : List (List Char)) (i : ℕ)
    (h : bf.bitArray.get? i = some 1) :
    (bf.addAll items).bitArray.get? i = some 1 := by
  induction items generalizing bf with
  | nil => exact h
  | cons y t ih =>
    rw [addAll, List.foldl_cons]
    exact ih (bf.add y) (foldl_set_get?_one _ _ _ _ h)

end BloomFilter

/-- The credit-card rule of the CLI test rule set: pattern
`\d{4}-\d{4}-\d{4}-\d{4}` with `visibleStart = 4`, `visibleEnd = 4`. -/
def cardRule : String × MaskOptions :=
  ("\\d\x7b4\x7d-\\d\x7b4\x7d-\\d\x7b4\x7d-\\d\x7b4\x7d",
    { visibleStart := 4, visibleEnd := 4 })

/-- The email rule of the CLI test rule set: the email pattern with
sensitivity `high`. -/
def emailRule : String × MaskOptions :=
  ("[a-zA-Z0-9._%+-]+@[a-zA-Z0-9.-]+\\.[a-zA-Z]\x7b2,\x7d",
    { sensitivity := "high" })

/-- The text redacted in the CLI test. -/
def sampleText : String :=
  "My credit card is 1234-5678-9012-3456 and my email is test@example.com"

/-! ## Claim theorems -/

/-- C3: for every string `s` and every config with
`visibleStart + visibleEnd >= length(s)`, `mask` returns `s` unchanged; the
short-circuit is a total, non-error path. -/
theorem c3_mask_short_circuit (s : List Char) (o : MaskOptions)
    (h : s.length ≤ o.visibleStart + o.visibleEnd) :
    maskList s o = s := by
  simp only [maskList]
  rw [if_pos h]

/-- Witness for C3 at a concrete input covered by the short-circuit. -/
theorem c3_mask_short_circuit_witness :
    ("short".data).length ≤ 3 + 3 ∧
      maskList "short".data { visibleStart := 3, visibleEnd := 3 } = "short".data :=
  ⟨by decide, c3_mask_short_circuit "short".data { visibleStart := 3, visibleEnd := 3 } (by decide)⟩

/-- C7: `mask` on any non-string-typed value returns the empty string; the
function is total, so no error is ever raised. -/
theorem c7_mask_nonstring (v : JSValue) (o : MaskOptions)
    (h : v.isString = false) :
    mask v o = [] := by
  cases v <;> simp_all [mask, JSValue.isString]

/-- Witness for C7 at a concrete non-string value. -/
theorem c7_mask_nonstring_witness :
    (JSValue.num 123).isString = false ∧ mask (JSValue.num 123) {} = [] :=
  ⟨rfl, c7_mask_nonstring (JSValue.num 123) {} rfl⟩

/-- C5: masking the 19-character card string with all defaults
(`visibleStart = 2`, `visibleEnd = 2`, `sensitivity = medium`) yields the
2-character prefix, exactly 11 asterisks, and the 2-character suffix — a
15-character result.  (In binary64 arithmetic `15 * 0.7` is exactly `10.5`,
which `Math.round` takes to 11.) -/
theorem c5_mask_card_default :
    maskList "1234-5678-9012-3456".data {} = "12".data ++ List.replicate 11 '*' ++ "56".data ∧
      (maskList "1234-5678-9012-3456".data {}).length = 2 + 11 + 2 := by
  constructor <;> decide

/-- C1 counterexample: on a 49-character string with the default config the
hidden span is 45 and the claimed exact round-half-up length is
`round(45 * 0.7) = round(31.5) = 32`, but the code computes
`Math.round(45 * 0.7)` in binary64, where `45 * 0.7 = 31.499999999999996`,
giving 31 mask characters — so the claimed output is not produced. -/
theorem c1_exact_rounding_counterexample :
    maskList (List.replicate 49 'a') {} =
        List.replicate 2 'a' ++ List.replicate 31 '*' ++ List.replicate 2 'a' ∧
      maskList (List.replicate 49 'a') {} ≠
        List.replicate 2 'a' ++ List.replicate 32 '*' ++ List.replicate 2 'a' := by
  constructor <;> decide

/-- C1 (amended): with a literal `maskChar` and
`visibleStart + visibleEnd < length(s)`, the result is
`s[0:visibleStart] ++ maskChar repeated the repeat count times ++
s[length-visibleEnd:]`, where the repeat count is `maskedLength =
Math.round(hiddenSpan * ratio)` evaluated in IEEE-754 binary64 arithmetic
(`maskedLen`) — not the exact round-half-up of the claim, from which it
first diverges at hidden span 45 under medium — and the ratio lookup is
prototype-aware: the three table keys give their doubles, a sensitivity key
naming an `Object.prototype` member gives a truthy non-number so that
`maskedLength` is `NaN`, which `String.prototype.repeat` coerces to 0 (empty
masked part), and only the remaining keys default to medium. -/
theorem c1_mask_decomposition (s : List Char) (o : MaskOptions) (mc : List Char)
    (hmc : o.maskChar = .lit mc)
    (hlt : o.visibleStart + o.visibleEnd < s.length) :
    maskList s o =
      s.take o.visibleStart ++
        repeatStr mc
          ((maskedLen (s.length - o.visibleStart - o.visibleEnd) o.sensitivity).getD 0) ++
        s.drop (s.length - o.visibleEnd) :=
  maskList_split s o mc hmc hlt

/-- Witness for the amended C1: the theorem applied at a concrete medium
input, plus its consequences at that input and at the inherited-key config
`{sensitivity: "constructor"}`, where the `NaN` repeat count empties the
masked part (`mask("secret1234", {sensitivity: "constructor"}) = "se34"`). -/
theorem c1_mask_decomposition_witness :
    MaskOptions.maskChar {} = .lit ['*'] ∧ (2 + 2 : ℕ) < ("secret1234".data).length ∧
      maskList "secret1234".data {} =
        ("secret1234".data).take 2 ++
          repeatStr ['*'] ((maskedLen (("secret1234".data).length - 2 - 2) "medium").getD 0) ++
          ("secret1234".data).drop (("secret1234".data).length - 2) ∧
      maskList "secret1234".data {} = "se****34".data ∧
      maskedLen 6 "constructor" = none ∧
      maskList "secret1234".data { sensitivity := "constructor" } = "se34".data :=
  ⟨rfl, by decide, c1_mask_decomposition "secret1234".data {} ['*'] rfl (by decide),
    by decide, by decide, by decide⟩

/-- C4: with sensitivity `high` and `visibleStart + visibleEnd < length(s)`
(and the ECMAScript bound `length(s) ≤ 2^53 - 1` on string lengths, under
which `h * 1.0` is exact), the whole hidden span is masked: `maskedLength`
equals the hidden span, and with a single-character literal mask the output
is the prefix, the fully masked span, and the suffix, with overall length
`length(s)`. -/
theorem c4_mask_high_full (s : List Char) (o : MaskOptions) (c : Char)
    (hsens : o.sensitivity = "high")
    (hmc : o.maskChar = .lit [c])
    (hlt : o.visibleStart + o.visibleEnd < s.length)
    (hjs : s.length < 2 ^ 53) :
    maskedLen (s.length - o.visibleStart - o.visibleEnd) o.sensitivity =
        some (s.length - o.visibleStart - o.visibleEnd) ∧
      maskList s o =
        s.take o.visibleStart ++
          List.replicate (s.length - o.visibleStart - o.visibleEnd) c ++
          s.drop (s.length - o.visibleEnd) ∧
      (maskList s o).length = s.length := by
  have hml : maskedLen (s.length - o.visibleStart - o.visibleEnd) "high" =
      some (s.length - o.visibleStart - o.visibleEnd) := maskedLen_high (by omega)
  have hsplit := maskList_split s o [c] hmc hlt
  rw [hsens, hml, Option.getD_some, repeatStr_single] at hsplit
  refine ⟨by rw [hsens]; exact hml, hsplit, ?_⟩
  rw [hsplit]
  simp [List.length_take, List.length_drop]
  omega

/-- C2: evaluating the redaction pipeline at the input of the repository CLI
test.  The code produces
`"My credit card is 1234********3456 and my email is te************om"`
— the card rule masks only `Math.round(11 * 0.7) = 8` of its 11 hidden
characters (dropping the inner dashes), and the email rule keeps the default
2-character visible prefix and suffix — and therefore does not produce the
output the claim (and the CLI test) states. -/
theorem c2_redact_cli_example :
    redactData [cardRule, emailRule] sampleText.data =
        "My credit card is 1234********3456 and my email is te************om".data ∧
      redactData [cardRule, emailRule] sampleText.data ≠
        "My credit card is 1234-****-****-3456 and my email is ****************".data := by
  constructor <;> decide

/-- C6: a rule whose pattern fails to compile (modelled by `parseRegex`
returning `none`, as the `catch` in `redactFile` swallows the `RegExp`
constructor throwing) leaves the text unmodified by that rule, and processing
continues with the remaining rules. -/
theorem c6_invalid_rule_skipped (p : String) (cfg : MaskOptions)
    (rest : List (String × MaskOptions)) (text : List Char)
    (h : parseRegex p = none) :
    redactData ((p, cfg) :: rest) text = redactData rest text := by
  simp [redactData, applyRule, h]

/-- Witness for C6: the unterminated class `"[abc"` fails to compile but the
valid card rule after it is still applied, masking its match. -/
theorem c6_invalid_rule_skipped_witness :
    parseRegex "[abc" = none ∧
      redactData [("[abc", {}), cardRule] sampleText.data =
        redactData [cardRule] sampleText.data ∧
      redactData [cardRule] sampleText.data =
        "My credit card is 1234********3456 and my email is test@example.com".data :=
  ⟨by decide,
    c6_invalid_rule_skipped "[abc" {} [cardRule] sampleText.data (by decide),
    by decide⟩

/-- Witness for C4 at a concrete input. -/
theorem c4_mask_high_full_witness :
    MaskOptions.sensitivity { sensitivity := "high" } = "high" ∧
      maskList "test@example.com".data { sensitivity := "high" } =
        ("test@example.com".data).take 2 ++
          List.replicate (("test@example.com".data).length - 2 - 2) '*' ++
          ("test@example.com".data).drop (("test@example.com".data).length - 2) :=
  ⟨rfl,
    (c4_mask_high_full "test@example.com".data { sensitivity := "high" } '*' rfl rfl
      (by decide) (by decide)).2.1⟩

/-- C8: `compare` never raises (it is total) and returns `true` exactly when
both arguments are strings of equal length with identical content — i.e. the
same string — returning `false` (not an error) for any non-string argument,
any length mismatch, and any content difference; two empty strings compare
equal. -/
theorem c8_compare_spec (a b : JSValue) :
    compare a b = true ↔ ∃ s, a = JSValue.str s ∧ b = JSValue.str s := by
  cases a <;> cases b <;> simp [compare]
  case str.str s1 s2 =>
    constructor
    · rintro ⟨hl, hx⟩
      exact ((xorFold_eq_zero s1 s2 hl).mp hx).symm
    · rintro rfl
      exact ⟨rfl, (xorFold_eq_zero s2 s2 rfl).mpr rfl⟩

/-- C9: the bloom filter has no false negatives.  For a filter built by the
constructor with `size ≥ 1`, after any earlier adds (`pre`), an `add x`, and
any later adds (`post`) — the only mutations the class performs, so the hash
seeds and bit array are not otherwise changed — `check x` returns `true`:
every bit set by an add is never cleared by a later add. -/
theorem c9_bloom_no_false_negatives (size : ℕ) (seeds : List ℤ) (x : List Char)
    (pre post : List (List Char)) (hsize : 0 < size) :
    ((((BloomFilter.make size seeds).addAll pre).add x).addAll post).check x = true := by
  set bf0 := (BloomFilter.make size seeds).addAll pre with hbf0
  have h0size : bf0.size = size := BloomFilter.addAll_size _ _
  have h0hfs : bf0.hashFunctions = seeds := BloomFilter.addAll_hashFunctions _ _
  have h0len : bf0.bitArray.length = size := by
    rw [hbf0, BloomFilter.addAll_length]
    exact List.length_replicate size 0
  rw [BloomFilter.check, List.all_eq_true]
  intro sd hsd
  have hsd' : sd ∈ bf0.hashFunctions := by
    rw [h0hfs]
    rw [BloomFilter.addAll_hashFunctions, BloomFilter.add_hashFunctions, h0hfs] at hsd
    exact hsd
  have hbit : (bf0.add x).bitArray.get? (bf0.hashIndex x sd) = some 1 :=
    BloomFilter.add_get?_one bf0 x sd hsd' (by omega) (by omega)
  have hbit2 : ((bf0.add x).addAll post).bitArray.get? (bf0.hashIndex x sd) = some 1 :=
    BloomFilter.addAll_get?_one (bf0.add x) post _ hbit
  have hidx : ((bf0.add x).addAll post).hashIndex x sd = bf0.hashIndex x sd :=
    BloomFilter.hashIndex_congr _ _ x sd
      (by rw [BloomFilter.addAll_size, BloomFilter.add_size])
  rw [hidx, hbit2]
  rfl

/-- Witness for C9 at a concrete filter: the seeds of the repository test,
one earlier add, the insertion of `"apple"`, and a later add. -/
theorem c9_bloom_no_false_negatives_witness :
    (0 : ℕ) < 100 ∧
      ((((BloomFilter.make 100 [1, 7]).addAll ["banana".data]).add
        "apple".data).addAll ["grape".data]).check "apple".data = true :=
  ⟨by decide,
    c9_bloom_no_false_negatives 100 [1, 7] "apple".data ["banana".data] ["grape".data]
      (by decide)⟩

/-- C10: a filter whose hash-seed list is empty — the constructor default —
answers `check x = true` ("possibly present") for every `x`, fresh or not,
and its `add` leaves the bit array unchanged, so it can never report
"definitely absent". -/
theorem c10_bloom_empty_seeds (bf : BloomFilter) (x : List Char)
    (h : bf.hashFunctions = []) :
    bf.check x = true ∧ (bf.add x).bitArray = bf.bitArray := by
  constructor
  · rw [BloomFilter.check, h]
    rfl
  · rw [BloomFilter.add, h]
    rfl

/-- Witness for C10 on the fresh all-defaults filter (`new BloomFilter()`),
to which nothing was ever added. -/
theorem c10_bloom_empty_seeds_witness :
    BloomFilter.makeDefault.hashFunctions = [] ∧
      BloomFilter.makeDefault.check "apple".data = true ∧
      (BloomFilter.makeDefault.add "apple".data).bitArray =
        BloomFilter.makeDefault.bitArray :=
  ⟨rfl,
    (c10_bloom_empty_seeds BloomFilter.makeDefault "apple".data rfl).1,
    (c10_bloom_empty_seeds BloomFilter.makeDefault "apple".data rfl).2⟩

end Cybercipher
